import Mathlib

/-!
Verification of the dynamic agent-definition loader of claude-flow.

The file embeds `src/constants/agent-types.ts` directly.  The dynamic
loader it delegates to (`src/agents/agent-loader.ts`) is not part of the
provided sources, so the scanner / parser / cache / registry layer is
modelled from the specification, with each such definition marked
`Modelled from the spec:` in its doc comment.
-/

set_option maxRecDepth 4096

namespace ClaudeFlow

/-! ## Legacy alias mapping (`src/constants/agent-types.ts`) -/

/-- The `LEGACY_AGENT_MAPPING` constant object: legacy agent identifiers
mapped to their current replacements, in source order. -/
def LEGACY_AGENT_MAPPING : List (String × String) :=
  [ ("analyst", "code-analyzer"),
    ("coordinator", "task-orchestrator"),
    ("optimizer", "perf-analyzer"),
    ("documenter", "api-docs"),
    ("monitor", "performance-benchmarker"),
    ("specialist", "system-architect"),
    ("architect", "system-architect") ]

/-- A JavaScript runtime value as it can flow through
`resolveLegacyAgentType`: a string, a native function (named by the
identifier JS prints for it), the `Object.prototype` object, or
`undefined`. The `as const` / `as keyof` casts in the source are erased at
runtime, so non-string values really do escape the function. -/
inductive JsValue where
  | str (s : String)
  | jsFunction (name : String)
  | objectPrototype
  | undefined
  deriving Repr, DecidableEq

/-- The property names `Object.prototype` supplies as function members in
Node/V8 (besides `constructor`, whose value is the `Object` function, and
the `__proto__` accessor, which yields `Object.prototype` itself). -/
def objectPrototypeMethods : List String :=
  [ "hasOwnProperty", "isPrototypeOf", "propertyIsEnumerable",
    "toLocaleString", "toString", "valueOf",
    "__defineGetter__", "__defineSetter__", "__lookupGetter__",
    "__lookupSetter__" ]

/-- The bracket read `LEGACY_AGENT_MAPPING[key]` under JS property-lookup
semantics: own entries first, then the prototype chain of the plain object
literal — `constructor` yields the `Object` function, `__proto__` yields
`Object.prototype`, the other `Object.prototype` members yield native
functions — and `undefined` otherwise. -/
def legacyMappingRead (key : String) : JsValue :=
  match LEGACY_AGENT_MAPPING.lookup key with
  | some v => .str v
  | none =>
    if key = "constructor" then .jsFunction "Object"
    else if key = "__proto__" then .objectPrototype
    else if key ∈ objectPrototypeMethods then .jsFunction key
    else .undefined

/-- JS truthiness of the values involved: `undefined` and the empty string
are falsy, functions and objects truthy. -/
def jsTruthy : JsValue → Bool
  | .str s => !(s == "")
  | .jsFunction _ => true
  | .objectPrototype => true
  | .undefined => false

/-- JS string coercion of a value used as a property key: strings pass
through, a native function renders as V8 prints it, and `Object.prototype`
renders as `[object Object]`. -/
def jsToPropertyKey : JsValue → String
  | .str s => s
  | .jsFunction n => "function " ++ n ++ "() \x7b [native code] \x7d"
  | .objectPrototype => "[object Object]"
  | .undefined => "undefined"

/-- `resolveLegacyAgentType`: the TypeScript body is
`const mapped = LEGACY_AGENT_MAPPING[legacyType]; return mapped || legacyType;`.
The bracket lookup coerces the key and consults own properties first, then
the prototype chain; `mapped || legacyType` returns `mapped` when truthy
(so an inherited `Object.prototype` member — a truthy function or object —
escapes instead of the identifier), and falls back to the argument when
`mapped` is `undefined` or an empty string. -/
def resolveLegacyAgentType (legacyType : JsValue) : JsValue :=
  let mapped := legacyMappingRead (jsToPropertyKey legacyType)
  if jsTruthy mapped then mapped else legacyType

/-- The seven legacy alias keys, in source order. -/
def legacyAliasKeys : List String := LEGACY_AGENT_MAPPING.map Prod.fst

theorem lookup_eq_none_of_not_mem_keys (x : String)
    (h : x ∉ legacyAliasKeys) : LEGACY_AGENT_MAPPING.lookup x = none := by
  simp only [legacyAliasKeys, LEGACY_AGENT_MAPPING, List.map, List.mem_cons,
    List.not_mem_nil, or_false, not_or] at h
  obtain ⟨h1, h2, h3, h4, h5, h6, h7⟩ := h
  simp [LEGACY_AGENT_MAPPING, List.lookup,
    beq_eq_false_iff_ne.mpr h1, beq_eq_false_iff_ne.mpr h2, beq_eq_false_iff_ne.mpr h3,
    beq_eq_false_iff_ne.mpr h4, beq_eq_false_iff_ne.mpr h5, beq_eq_false_iff_ne.mpr h6,
    beq_eq_false_iff_ne.mpr h7]

theorem resolve_eq_self_of_not_alias (x : String) (hk : x ∉ legacyAliasKeys)
    (hc : x ≠ "constructor") (hp : x ≠ "__proto__")
    (hm : x ∉ objectPrototypeMethods) :
    resolveLegacyAgentType (.str x) = .str x := by
  unfold resolveLegacyAgentType legacyMappingRead jsToPropertyKey
  rw [lookup_eq_none_of_not_mem_keys x hk]
  simp [hc, hp, hm, jsTruthy]

/-! ## Data model of the loader

`src/agents/agent-loader.ts` is imported by `src/constants/agent-types.ts`
but its source is not part of the repository snapshot, so the scanner,
parser, cache and registry below are modelled from the specification
(spec §3, §4.1–§4.4, §7). -/

/-- Modelled from the spec: `AgentDefinition`, one parsed document (spec §3);
`metadata` is the full parsed header, passed through unvalidated. -/
structure AgentDefinition where
  name : String
  description : String
  category : String
  body : String
  metadata : List (String × String)
  sourcePath : String
  deriving Repr, DecidableEq

/-- Modelled from the spec: the per-file error taxonomy (spec §7), each
diagnostic carrying the source path it concerns. -/
inductive Diagnostic where
  | malformedHeader (sourcePath : String)
  | missingRequiredField (sourcePath : String)
  | duplicateName (name : String) (sourcePath : String)
  deriving Repr, DecidableEq

/-- Modelled from the spec: a raw definition document as the parser sees it;
`header = none` stands for an absent or unparsable front-matter block,
`header = some kvs` for a parsed key-value header (spec §4.2). -/
structure RawFile where
  path : String
  header : Option (List (String × String))
  body : String
  deriving Repr, DecidableEq

/-- Modelled from the spec: the filesystem visible to the scanner — the set
of existing directories and the files, listed in the scanner's deterministic
(path-lexicographic) enumeration order (spec §4.1, §5). -/
structure FileSystem where
  dirs : List String
  files : List RawFile
  deriving Repr, DecidableEq

/-- Boolean prefix test on the underlying character lists. -/
def strStartsWith (pre s : String) : Bool := pre.data.isPrefixOf s.data

/-- Boolean suffix test on the underlying character lists. -/
def strEndsWith (suf s : String) : Bool := suf.data.reverse.isPrefixOf s.data.reverse

/-- Split a character list at every path separator. -/
def splitPath : List Char → List (List Char)
  | [] => [[]]
  | c :: cs =>
    if c = '/' then [] :: splitPath cs
    else
      match splitPath cs with
      | [] => [[c]]
      | p :: ps => (c :: p) :: ps

/-- Modelled from the spec: `category` derived from the file's directory path
relative to the scan root, full-relative-path variant (spec §3, §9). -/
def deriveCategory (root path : String) : String :=
  let rel := path.data.drop (root.data.length + 1)
  String.intercalate "/" ((splitPath rel).dropLast.map String.mk)

/-- Modelled from the spec: a file is a definition document when it lies
under the root and its extension marks it as one (spec §4.1, §6). -/
def isDefinitionFile (root : String) (f : RawFile) : Bool :=
  strStartsWith (root ++ "/") f.path && strEndsWith ".md" f.path

/-- Modelled from the spec: the Directory Scanner (spec §4.1) — empty result,
not an error, when the root directory does not exist; otherwise the
definition documents under the root, in the deterministic enumeration
order of `fs.files`. -/
def scanDirectory (fs : FileSystem) (root : String) : List RawFile :=
  if fs.dirs.contains root then fs.files.filter (isDefinitionFile root) else []

/-- Outcome of parsing one document: a diagnostic or a definition. -/
inductive ParseOutcome where
  | failure (diag : Diagnostic)
  | success (d : AgentDefinition)
  deriving Repr, DecidableEq

/-- Modelled from the spec: the Definition Parser (spec §4.2) — absent or
unparsable header yields `MalformedHeader`; a header without `name` or
`description` yields `MissingRequiredField`; otherwise a definition, with
the category filled in from the path by the caller's rule. -/
def parseAgentFile (root : String) (f : RawFile) : ParseOutcome :=
  match f.header with
  | none => .failure (.malformedHeader f.path)
  | some kvs =>
    match kvs.lookup "name", kvs.lookup "description" with
    | some n, some desc =>
      .success { name := n, description := desc,
                 category := deriveCategory root f.path,
                 body := f.body, metadata := kvs, sourcePath := f.path }
    | _, _ => .failure (.missingRequiredField f.path)

/-- Modelled from the spec: `RegistrySnapshot`, the unit the cache stores
(spec §3). -/
structure RegistrySnapshot where
  definitions : List AgentDefinition
  diagnostics : List Diagnostic
  loadedAt : Nat
  rootSignature : String
  deriving Repr, DecidableEq

/-- The definition a successful parse produced, if any. -/
def defOf : ParseOutcome → Option AgentDefinition
  | .success d => some d
  | .failure _ => none

/-- The diagnostic a failed parse produced, if any. -/
def diagOf : ParseOutcome → Option Diagnostic
  | .failure g => some g
  | .success _ => none

/-- All definitions that parsed successfully, in scan order. -/
def parsedDefs (fs : FileSystem) (root : String) : List AgentDefinition :=
  ((scanDirectory fs root).map (parseAgentFile root)).filterMap defOf

/-- All per-file parse diagnostics, in scan order. -/
def parseDiagnostics (fs : FileSystem) (root : String) : List Diagnostic :=
  ((scanDirectory fs root).map (parseAgentFile root)).filterMap diagOf

/-- Modelled from the spec: duplicate-name resolution (spec §3, §7) — first
occurrence wins, a later duplicate is dropped and recorded as a
`DuplicateName` diagnostic; `seen` holds the names already claimed. -/
def dedupeByName : List AgentDefinition → List String → List AgentDefinition × List Diagnostic
  | [], _ => ([], [])
  | d :: ds, seen =>
    if d.name ∈ seen then
      let r := dedupeByName ds seen
      (r.1, .duplicateName d.name d.sourcePath :: r.2)
    else
      let r := dedupeByName ds (d.name :: seen)
      (d :: r.1, r.2)

/-- Modelled from the spec: one scan+parse pass assembling an immutable
snapshot (spec §2 data flow, §3). -/
def buildSnapshot (fs : FileSystem) (root : String) (now : Nat) : RegistrySnapshot :=
  let r := dedupeByName (parsedDefs fs root) []
  { definitions := r.1,
    diagnostics := parseDiagnostics fs root ++ r.2,
    loadedAt := now,
    rootSignature := root }

/-- Modelled from the spec: the loader's state — the filesystem, the
configured root, the one-snapshot cache, a scan counter (the spec's
scan-count probe, §8), the clock, and the expiry duration (spec §4.3, §9). -/
structure LoaderState where
  fs : FileSystem
  rootDir : String
  cache : Option RegistrySnapshot
  scanCount : Nat
  now : Nat
  cacheExpiry : Nat
  deriving Repr, DecidableEq

/-- Modelled from the spec: cache `get(rootPath)` (spec §4.3) — the live
snapshot when present and `now - loadedAt < expiry`, else stale/absent. -/
def cacheGet (s : LoaderState) : Option RegistrySnapshot :=
  match s.cache with
  | some snap =>
    if snap.rootSignature = s.rootDir ∧ s.now - snap.loadedAt < s.cacheExpiry then
      some snap
    else none
  | none => none

/-- Modelled from the spec: the registry's load path (spec §4.4) — consult
the cache first, rebuild on miss/expiry; the scan counter increments
exactly when a rebuild happens. -/
def loadAgents (s : LoaderState) : RegistrySnapshot × LoaderState :=
  match cacheGet s with
  | some snap => (snap, s)
  | none =>
    let snap := buildSnapshot s.fs s.rootDir s.now
    (snap, { s with cache := some snap, scanCount := s.scanCount + 1 })

/-- Modelled from the spec: `listAll()` (spec §4.4). -/
def listAll (s : LoaderState) : List AgentDefinition × LoaderState :=
  let r := loadAgents s
  (r.1.definitions, r.2)

/-- Lookup by name inside one snapshot; the argument is used as given,
with no legacy-alias resolution (spec §4.4 `get(name)`). -/
def getDefinition (snap : RegistrySnapshot) (name : String) : Option AgentDefinition :=
  snap.definitions.find? (fun d => d.name == name)

/-- Modelled from the spec: registry `get(name)` (spec §4.4). -/
def getAgent (s : LoaderState) (name : String) : Option AgentDefinition × LoaderState :=
  let r := loadAgents s
  (getDefinition r.1 name, r.2)

/-- Modelled from the spec: agent-loader's `getAvailableAgentTypes` — names
of all current definitions (spec §4.6). -/
def getAvailableAgentTypes (s : LoaderState) : List String × LoaderState :=
  let r := listAll s
  (r.1.map AgentDefinition.name, r.2)

/-- Modelled from the spec: agent-loader's validator — membership of the
identifier among the current definition names (spec §4.6). -/
def validateAgentType (s : LoaderState) (type : String) : Bool × LoaderState :=
  let r := getAvailableAgentTypes s
  (r.1.contains type, r.2)

/-! ## The adapter surface of `src/constants/agent-types.ts` -/

/-- `getValidAgentTypes` (agent-types.ts): returns the loader's available
agent types. -/
def getValidAgentTypes (s : LoaderState) : List String × LoaderState :=
  getAvailableAgentTypes s

/-- `isValidAgentType` (agent-types.ts): delegates to the loader's
validator. -/
def isValidAgentType (s : LoaderState) (type : String) : Bool × LoaderState :=
  validateAgentType s type

/-- The JSON-schema object produced by `getAgentTypeSchema`. -/
structure AgentTypeSchema where
  type : String
  enum : List String
  description : String
  deriving Repr, DecidableEq

/-- `getAgentTypeSchema` (agent-types.ts): builds the schema from the valid
types computed at call time. -/
def getAgentTypeSchema (s : LoaderState) : AgentTypeSchema × LoaderState :=
  let r := getValidAgentTypes s
  ({ type := "string", enum := r.1, description := "Type of specialized AI agent" }, r.2)

/-- Advance the model clock; filesystem, root and cache are untouched. -/
def advanceTime (s : LoaderState) (dt : Nat) : LoaderState :=
  { s with now := s.now + dt }

/-! ## Sample states used by the witness theorems -/

/-- A well-formed definition document. -/
def goodFile : RawFile :=
  { path := "agents/analysis/code-quality.md",
    header := some [("name", "code-analyzer"), ("description", "Analyzes code")],
    body := "body text" }

/-- The definition `goodFile` parses to, under root `agents`. -/
def goodDef : AgentDefinition :=
  { name := "code-analyzer", description := "Analyzes code",
    category := "analysis", body := "body text",
    metadata := [("name", "code-analyzer"), ("description", "Analyzes code")],
    sourcePath := "agents/analysis/code-quality.md" }

/-- A document with an absent/unparsable front-matter header. -/
def badFile : RawFile :=
  { path := "agents/broken.md", header := none, body := "junk" }

/-- A second well-formed document reusing the name `code-analyzer`. -/
def dupFile : RawFile :=
  { path := "agents/dup/code-quality2.md",
    header := some [("name", "code-analyzer"), ("description", "dup")],
    body := "b2" }

/-- A fresh loader state over a root holding `goodFile` only. -/
def freshState : LoaderState :=
  { fs := { dirs := ["agents"], files := [goodFile] },
    rootDir := "agents", cache := none, scanCount := 0, now := 0,
    cacheExpiry := 60000 }

/-- A fresh loader state over a root holding a good, a bad and a
duplicate-name file. -/
def mixedState : LoaderState :=
  { fs := { dirs := ["agents"], files := [goodFile, badFile, dupFile] },
    rootDir := "agents", cache := none, scanCount := 0, now := 0,
    cacheExpiry := 60000 }

/-- A filesystem holding one well-formed and one malformed file. -/
def isolatedFs : FileSystem :=
  { dirs := ["agents"], files := [goodFile, badFile] }

/-- A fresh loader state whose configured root directory does not exist. -/
def missingRootState : LoaderState :=
  { fs := { dirs := [], files := [goodFile] },
    rootDir := "agents", cache := none, scanCount := 0, now := 0,
    cacheExpiry := 60000 }

/-! ## Properties of duplicate-name resolution -/

theorem dedupeByName_name_not_mem_seen (ds : List AgentDefinition) (seen : List String) :
    ∀ d ∈ (dedupeByName ds seen).1, d.name ∉ seen := by
  induction ds generalizing seen with
  | nil => simp [dedupeByName]
  | cons d ds ih =>
    intro e he
    by_cases h : d.name ∈ seen
    · simp only [dedupeByName, if_pos h] at he
      exact ih seen e he
    · simp only [dedupeByName, if_neg h, List.mem_cons] at he
      rcases he with rfl | he
      · exact h
      · intro hmem
        exact ih (d.name :: seen) e he (List.mem_cons_of_mem _ hmem)

theorem dedupeByName_names_nodup (ds : List AgentDefinition) (seen : List String) :
    ((dedupeByName ds seen).1.map AgentDefinition.name).Nodup := by
  induction ds generalizing seen with
  | nil => simp [dedupeByName]
  | cons d ds ih =>
    by_cases h : d.name ∈ seen
    · simp only [dedupeByName, if_pos h]
      exact ih seen
    · simp only [dedupeByName, if_neg h, List.map_cons]
      refine List.nodup_cons.mpr ⟨?_, ih (d.name :: seen)⟩
      intro hmem
      rcases List.mem_map.mp hmem with ⟨e, he, hname⟩
      exact dedupeByName_name_not_mem_seen ds (d.name :: seen) e he
        (by rw [hname]; exact List.mem_cons_self _ _)

theorem dedupeByName_find? (ds : List AgentDefinition) (seen : List String)
    (n : String) (hn : n ∉ seen) :
    (dedupeByName ds seen).1.find? (fun d => d.name == n) =
      ds.find? (fun d => d.name == n) := by
  induction ds generalizing seen with
  | nil => simp [dedupeByName]
  | cons d ds ih =>
    by_cases h : d.name ∈ seen
    · have hne : (d.name == n) = false := by
        apply beq_eq_false_iff_ne.mpr
        intro he
        exact hn (he ▸ h)
      simp only [dedupeByName, if_pos h, List.find?, hne]
      exact ih seen hn
    · by_cases he : d.name = n
      · simp only [dedupeByName, if_neg h, List.find?, beq_iff_eq.mpr he]
      · have hne : (d.name == n) = false := beq_eq_false_iff_ne.mpr he
        simp only [dedupeByName, if_neg h, List.find?, hne]
        apply ih
        intro hmem
        rcases List.mem_cons.mp hmem with h1 | h1
        · exact he h1.symm
        · exact hn h1

theorem dedupeByName_dropped_diag (ds : List AgentDefinition) (seen : List String) :
    ∀ d ∈ ds, d ∉ (dedupeByName ds seen).1 →
      Diagnostic.duplicateName d.name d.sourcePath ∈ (dedupeByName ds seen).2 := by
  induction ds generalizing seen with
  | nil => simp
  | cons e ds ih =>
    intro d hd hnot
    by_cases h : e.name ∈ seen
    · simp only [dedupeByName, if_pos h] at hnot ⊢
      rcases List.mem_cons.mp hd with rfl | hd'
      · exact List.mem_cons_self _ _
      · exact List.mem_cons_of_mem _ (ih seen d hd' hnot)
    · simp only [dedupeByName, if_neg h, List.mem_cons] at hnot ⊢
      push_neg at hnot
      rcases List.mem_cons.mp hd with rfl | hd'
      · exact absurd rfl hnot.1
      · exact ih (e.name :: seen) d hd' hnot.2

theorem dedupeByName_of_nodup (ds : List AgentDefinition) (seen : List String)
    (h : (ds.map AgentDefinition.name).Nodup) (h2 : ∀ d ∈ ds, d.name ∉ seen) :
    dedupeByName ds seen = (ds, []) := by
  induction ds generalizing seen with
  | nil => rfl
  | cons d ds ih =>
    have hd : d.name ∉ seen := h2 d (List.mem_cons_self _ _)
    simp only [dedupeByName, if_neg hd]
    rw [List.map_cons, List.nodup_cons] at h
    have : dedupeByName ds (d.name :: seen) = (ds, []) := by
      apply ih (d.name :: seen) h.2
      intro e he
      intro hmem
      rcases List.mem_cons.mp hmem with h1 | h1
      · exact h.1 (h1 ▸ List.mem_map_of_mem AgentDefinition.name he)
      · exact h2 e (List.mem_cons_of_mem _ he) h1
    rw [this]

theorem find?_name_of_mem (l : List AgentDefinition)
    (hnd : (l.map AgentDefinition.name).Nodup)
    (d : AgentDefinition) (hd : d ∈ l) :
    l.find? (fun e => e.name == d.name) = some d := by
  induction l with
  | nil => cases hd
  | cons e l ih =>
    rw [List.map_cons, List.nodup_cons] at hnd
    rcases List.mem_cons.mp hd with rfl | hd'
    · simp [List.find?]
    · have hne : e.name ≠ d.name := by
        intro h
        exact hnd.1 (h ▸ List.mem_map_of_mem AgentDefinition.name hd')
      simp only [List.find?, beq_eq_false_iff_ne.mpr hne]
      exact ih hnd.2 hd'

theorem length_filterMap_defOf_add_diagOf (os : List ParseOutcome) :
    (os.filterMap defOf).length + (os.filterMap diagOf).length = os.length := by
  induction os with
  | nil => rfl
  | cons o os ih =>
    cases o with
    | failure g =>
      simp only [List.filterMap_cons, defOf, diagOf, List.length_cons]
      omega
    | success d =>
      simp only [List.filterMap_cons, defOf, diagOf, List.length_cons]
      omega

/-! ## Properties of the cache -/

theorem cacheGet_eq_some (s : LoaderState) (snap : RegistrySnapshot)
    (h : cacheGet s = some snap) :
    s.cache = some snap ∧ snap.rootSignature = s.rootDir ∧
      s.now - snap.loadedAt < s.cacheExpiry := by
  unfold cacheGet at h
  cases hc : s.cache with
  | none => rw [hc] at h; cases h
  | some sn =>
    rw [hc] at h
    change (if sn.rootSignature = s.rootDir ∧ s.now - sn.loadedAt < s.cacheExpiry
      then some sn else none) = some snap at h
    by_cases hcond : sn.rootSignature = s.rootDir ∧ s.now - sn.loadedAt < s.cacheExpiry
    · rw [if_pos hcond] at h
      injection h with h'
      subst h'
      exact ⟨rfl, hcond.1, hcond.2⟩
    · rw [if_neg hcond] at h
      cases h

theorem loadAgents_spec (s : LoaderState) :
    (loadAgents s).2.cache = some (loadAgents s).1 ∧
    (loadAgents s).1.rootSignature = s.rootDir ∧
    (loadAgents s).2.rootDir = s.rootDir ∧
    (loadAgents s).2.now = s.now ∧
    (loadAgents s).2.cacheExpiry = s.cacheExpiry := by
  unfold loadAgents
  cases hcg : cacheGet s with
  | none => exact ⟨rfl, rfl, rfl, rfl, rfl⟩
  | some snap =>
    obtain ⟨hc, hsig, _⟩ := cacheGet_eq_some s snap hcg
    exact ⟨hc, hsig, rfl, rfl, rfl⟩

/-! ## Claim theorems -/

/-- C1: the code violates the claim's identity-fallback clause — at the
inherited `Object.prototype` property names the bracket lookup finds a
truthy inherited member, so `resolveLegacyAgentType` returns that member
(a non-string function or object) instead of the identifier unchanged;
the seven alias mappings themselves behave as claimed. -/
theorem resolveLegacyAgentType_prototype_leak :
    resolveLegacyAgentType (.str "toString") = .jsFunction "toString" ∧
    resolveLegacyAgentType (.str "valueOf") = .jsFunction "valueOf" ∧
    resolveLegacyAgentType (.str "hasOwnProperty") = .jsFunction "hasOwnProperty" ∧
    resolveLegacyAgentType (.str "constructor") = .jsFunction "Object" ∧
    resolveLegacyAgentType (.str "__proto__") = JsValue.objectPrototype ∧
    resolveLegacyAgentType (.str "analyst") = .str "code-analyzer" ∧
    resolveLegacyAgentType (.str "unknown-name") = .str "unknown-name" := by
  decide

/-- C10: `resolveLegacyAgentType` is idempotent on every string identifier:
no own mapping value is an alias key, and the coerced property key of an
inherited `Object.prototype` member is neither an own key nor an inherited
property name, so a second application changes nothing. -/
theorem resolveLegacyAgentType_idem (x : String) :
    resolveLegacyAgentType (resolveLegacyAgentType (.str x)) =
      resolveLegacyAgentType (.str x) := by
  by_cases hk : x ∈ legacyAliasKeys
  · simp only [legacyAliasKeys, LEGACY_AGENT_MAPPING, List.map, List.mem_cons,
      List.not_mem_nil, or_false] at hk
    rcases hk with rfl | rfl | rfl | rfl | rfl | rfl | rfl <;> decide
  · by_cases hc : x = "constructor"
    · subst hc; decide
    · by_cases hp : x = "__proto__"
      · subst hp; decide
      · by_cases hm : x ∈ objectPrototypeMethods
        · simp only [objectPrototypeMethods, List.mem_cons,
            List.not_mem_nil, or_false] at hm
          rcases hm with rfl | rfl | rfl | rfl | rfl | rfl | rfl | rfl | rfl | rfl <;>
            decide
        · have h1 := resolve_eq_self_of_not_alias x hk hc hp hm
          rw [h1, h1]

/-- C2: `isValidAgentType` holds exactly of the identifiers returned by
`getValidAgentTypes` at the same state; in particular legacy aliases are
not automatically valid — when `code-analyzer` is a current name and
`analyst` is not, the former validates and the latter does not. -/
theorem isValidAgentType_spec (s : LoaderState) (type : String) :
    ((isValidAgentType s type).1 = true ↔ type ∈ (getValidAgentTypes s).1) ∧
    ("code-analyzer" ∈ (getValidAgentTypes s).1 →
      "analyst" ∉ (getValidAgentTypes s).1 →
      (isValidAgentType s "code-analyzer").1 = true ∧
      (isValidAgentType s "analyst").1 = false) := by
  constructor
  · simp [isValidAgentType, validateAgentType, getValidAgentTypes]
  · intro hin hout
    constructor
    · simp [isValidAgentType, validateAgentType, getValidAgentTypes]
      exact hin
    · simp [isValidAgentType, validateAgentType, getValidAgentTypes]
      exact hout

/-- Witness for C2 at a concrete registry holding only `code-analyzer`. -/
theorem isValidAgentType_spec_witness :
    ("code-analyzer" ∈ (getValidAgentTypes freshState).1 ∧
     "analyst" ∉ (getValidAgentTypes freshState).1) ∧
    (isValidAgentType freshState "code-analyzer").1 = true ∧
    (isValidAgentType freshState "analyst").1 = false :=
  ⟨⟨by decide, by decide⟩,
   (isValidAgentType_spec freshState "analyst").2 (by decide) (by decide)⟩

/-- C4: under a fresh cache, `listAll` returns the freshly built snapshot's
definitions: their names are pairwise distinct, the definition kept for any
name is the scan-order-first successfully parsed one, and every dropped
duplicate is recorded as a `DuplicateName` diagnostic. -/
theorem listAll_distinct_first_wins (s : LoaderState) (hc : s.cache = none) :
    (listAll s).1 = (buildSnapshot s.fs s.rootDir s.now).definitions ∧
    ((listAll s).1.map AgentDefinition.name).Nodup ∧
    (∀ n : String, (listAll s).1.find? (fun d => d.name == n) =
      (parsedDefs s.fs s.rootDir).find? (fun d => d.name == n)) ∧
    (∀ d ∈ parsedDefs s.fs s.rootDir, d ∉ (listAll s).1 →
      Diagnostic.duplicateName d.name d.sourcePath ∈
        (buildSnapshot s.fs s.rootDir s.now).diagnostics) := by
  have h1 : (listAll s).1 = (buildSnapshot s.fs s.rootDir s.now).definitions := by
    simp [listAll, loadAgents, cacheGet, hc]
  have hdefs : (buildSnapshot s.fs s.rootDir s.now).definitions =
      (dedupeByName (parsedDefs s.fs s.rootDir) []).1 := rfl
  refine ⟨h1, ?_, ?_, ?_⟩
  · rw [h1, hdefs]
    exact dedupeByName_names_nodup _ _
  · intro n
    rw [h1, hdefs]
    exact dedupeByName_find? _ [] n (by simp)
  · intro d hd hnot
    rw [h1, hdefs] at hnot
    have hdiag := dedupeByName_dropped_diag (parsedDefs s.fs s.rootDir) [] d hd hnot
    show _ ∈ parseDiagnostics s.fs s.rootDir ++ (dedupeByName (parsedDefs s.fs s.rootDir) []).2
    exact List.mem_append_right _ hdiag

/-- Witness for C4 at a root with a good file, a malformed file and a
duplicate-name file. -/
theorem listAll_distinct_first_wins_witness :
    mixedState.cache = none ∧
    ((listAll mixedState).1.map AgentDefinition.name).Nodup ∧
    (listAll mixedState).1 = [goodDef] ∧
    Diagnostic.duplicateName "code-analyzer" "agents/dup/code-quality2.md" ∈
      (buildSnapshot mixedState.fs mixedState.rootDir mixedState.now).diagnostics := by
  refine ⟨rfl, (listAll_distinct_first_wins mixedState rfl).2.1, by decide, ?_⟩
  have h := (listAll_distinct_first_wins mixedState rfl).2.2.2
    { name := "code-analyzer", description := "dup",
      category := "dup", body := "b2",
      metadata := [("name", "code-analyzer"), ("description", "dup")],
      sourcePath := "agents/dup/code-quality2.md" }
    (by decide) (by decide)
  exact h

/-- C5: within one built snapshot, `get` on a definition's name returns
exactly that definition, and `get` applies no legacy-alias resolution to
its argument: an identifier no definition bears is simply not found. -/
theorem getDefinition_name_eq (fs : FileSystem) (root : String) (t : Nat)
    (d : AgentDefinition) (hd : d ∈ (buildSnapshot fs root t).definitions) :
    getDefinition (buildSnapshot fs root t) d.name = some d ∧
    (∀ (snap : RegistrySnapshot) (a : String),
      (∀ e ∈ snap.definitions, e.name ≠ a) → getDefinition snap a = none) := by
  constructor
  · apply find?_name_of_mem _ _ d hd
    exact dedupeByName_names_nodup _ _
  · intro snap a h
    apply List.find?_eq_none.mpr
    intro e he
    simp only [Bool.not_eq_true, beq_eq_false_iff_ne]
    exact h e he

/-- Witness for C5 at the concrete snapshot built over `goodFile`. -/
theorem getDefinition_name_eq_witness :
    goodDef ∈ (buildSnapshot freshState.fs "agents" 0).definitions ∧
    getDefinition (buildSnapshot freshState.fs "agents" 0) goodDef.name = some goodDef :=
  ⟨by decide, (getDefinition_name_eq freshState.fs "agents" 0 goodDef (by decide)).1⟩

/-- C6: with a fresh cache and a nonexistent root directory, `listAll`
returns the empty sequence and `isValidAgentType` is false on every
identifier; all the operations are total functions, so no error is thrown
or propagated. -/
theorem missing_root_graceful (s : LoaderState) (hc : s.cache = none)
    (hdir : s.fs.dirs.contains s.rootDir = false) :
    (listAll s).1 = [] ∧ ∀ t : String, (isValidAgentType s t).1 = false := by
  have hdir' : s.rootDir ∉ s.fs.dirs := by simpa using hdir
  have h1 : (listAll s).1 = [] := by
    simp [listAll, loadAgents, cacheGet, hc, buildSnapshot, parsedDefs,
      scanDirectory, hdir', dedupeByName]
  refine ⟨h1, ?_⟩
  intro t
  simp [isValidAgentType, validateAgentType, getValidAgentTypes,
    getAvailableAgentTypes, listAll] at h1 ⊢
  simp [h1]

/-- Witness for C6 at a state whose root directory is absent. -/
theorem missing_root_graceful_witness :
    (listAll missingRootState).1 = [] ∧
    (isValidAgentType missingRootState "coder").1 = false :=
  ⟨(missing_root_graceful missingRootState rfl (by decide)).1,
   (missing_root_graceful missingRootState rfl (by decide)).2 "coder"⟩

/-- C7: per-file parse failures are isolated: definitions and diagnostics
together account one-for-one for the scanned files, each failing file
contributes its one diagnostic to the snapshot, and when the well-formed
files bear distinct names they are all loaded, with no further
diagnostics; nothing aborts the load. -/
theorem parse_failure_isolated (fs : FileSystem) (root : String) (t : Nat) :
    ((parsedDefs fs root).length + (parseDiagnostics fs root).length =
      (scanDirectory fs root).length) ∧
    (∀ f ∈ scanDirectory fs root, ∀ g, parseAgentFile root f = .failure g →
      g ∈ (buildSnapshot fs root t).diagnostics) ∧
    (((parsedDefs fs root).map AgentDefinition.name).Nodup →
      (buildSnapshot fs root t).definitions = parsedDefs fs root ∧
      (buildSnapshot fs root t).diagnostics = parseDiagnostics fs root) := by
  refine ⟨?_, ?_, ?_⟩
  · have := length_filterMap_defOf_add_diagOf ((scanDirectory fs root).map (parseAgentFile root))
    rw [List.length_map] at this
    exact this
  · intro f hf g hg
    have hmem : g ∈ parseDiagnostics fs root := by
      apply List.mem_filterMap.mpr
      exact ⟨parseAgentFile root f, List.mem_map_of_mem _ hf, by rw [hg]; rfl⟩
    show g ∈ parseDiagnostics fs root ++ (dedupeByName (parsedDefs fs root) []).2
    exact List.mem_append_left _ hmem
  · intro hnd
    have hded : dedupeByName (parsedDefs fs root) [] = (parsedDefs fs root, []) :=
      dedupeByName_of_nodup _ _ hnd (by simp)
    constructor
    · show (dedupeByName (parsedDefs fs root) []).1 = parsedDefs fs root
      rw [hded]
    · show parseDiagnostics fs root ++ (dedupeByName (parsedDefs fs root) []).2 =
        parseDiagnostics fs root
      rw [hded, List.append_nil]

/-- Witness for C7 at a root with one well-formed and one malformed file. -/
theorem parse_failure_isolated_witness :
    Diagnostic.malformedHeader "agents/broken.md" ∈
      (buildSnapshot isolatedFs "agents" 0).diagnostics ∧
    (buildSnapshot isolatedFs "agents" 0).definitions = parsedDefs isolatedFs "agents" ∧
    (buildSnapshot isolatedFs "agents" 0).definitions = [goodDef] ∧
    (buildSnapshot isolatedFs "agents" 0).diagnostics =
      [Diagnostic.malformedHeader "agents/broken.md"] :=
  ⟨(parse_failure_isolated isolatedFs "agents" 0).2.1 badFile (by decide)
      (Diagnostic.malformedHeader "agents/broken.md") (by decide),
   ((parse_failure_isolated isolatedFs "agents" 0).2.2 (by decide)).1,
   by decide, by decide⟩

/-- C8: a second `listAll` within the expiry window, with an unchanged
filesystem and no invalidation, returns an equal result and performs no
second scan: the scan count does not increase. -/
theorem listAll_cached_idempotent (s : LoaderState) (dt : Nat)
    (h : s.now + dt - (loadAgents s).1.loadedAt < s.cacheExpiry) :
    (listAll (advanceTime (listAll s).2 dt)).1 = (listAll s).1 ∧
    (listAll (advanceTime (listAll s).2 dt)).2.scanCount = (listAll s).2.scanCount := by
  obtain ⟨hcache, hsig, hroot, hnow, hexp⟩ := loadAgents_spec s
  have hs2 : cacheGet (advanceTime (listAll s).2 dt) = some (loadAgents s).1 := by
    show (match (advanceTime (listAll s).2 dt).cache with
      | some snap =>
        if snap.rootSignature = (advanceTime (listAll s).2 dt).rootDir ∧
            (advanceTime (listAll s).2 dt).now - snap.loadedAt <
              (advanceTime (listAll s).2 dt).cacheExpiry then
          some snap
        else none
      | none => none) = some (loadAgents s).1
    have hc2 : (advanceTime (listAll s).2 dt).cache = some (loadAgents s).1 := hcache
    rw [hc2]
    apply if_pos
    constructor
    · show (loadAgents s).1.rootSignature = (loadAgents s).2.rootDir
      rw [hroot, hsig]
    · show (loadAgents s).2.now + dt - (loadAgents s).1.loadedAt <
        (loadAgents s).2.cacheExpiry
      rw [hnow, hexp]
      exact h
  have hload2 : loadAgents (advanceTime (listAll s).2 dt) =
      ((loadAgents s).1, advanceTime (listAll s).2 dt) := by
    unfold loadAgents
    rw [hs2]
    rfl
  constructor
  · show (loadAgents (advanceTime (listAll s).2 dt)).1.definitions =
      (loadAgents s).1.definitions
    rw [hload2]
  · show (loadAgents (advanceTime (listAll s).2 dt)).2.scanCount =
      (loadAgents s).2.scanCount
    rw [hload2]
    rfl

/-- Witness for C8: a second query 30 seconds after the first, against a
one-minute expiry, serves the cached snapshot. -/
theorem listAll_cached_idempotent_witness :
    (freshState.now + 30000 - (loadAgents freshState).1.loadedAt <
      freshState.cacheExpiry) ∧
    (listAll (advanceTime (listAll freshState).2 30000)).1 = (listAll freshState).1 ∧
    (listAll (advanceTime (listAll freshState).2 30000)).2.scanCount =
      (listAll freshState).2.scanCount :=
  ⟨by decide,
   (listAll_cached_idempotent freshState 30000 (by decide)).1,
   (listAll_cached_idempotent freshState 30000 (by decide)).2⟩

/-- C3: the schema produced by `getAgentTypeSchema` has type field
`"string"`, the fixed description, and an enum equal to
`getValidAgentTypes` evaluated at the same state. -/
theorem getAgentTypeSchema_spec (s : LoaderState) :
    (getAgentTypeSchema s).1.type = "string" ∧
    (getAgentTypeSchema s).1.description = "Type of specialized AI agent" ∧
    (getAgentTypeSchema s).1.enum = (getValidAgentTypes s).1 :=
  ⟨rfl, rfl, rfl⟩

end ClaudeFlow
